import Mathlib

/-
Verification development for the solidchair repository.

Server side (prisma schema, tRPC table router): tables own typed columns
and rows; rows own one cell per column; `getTableData` serves cursor
pages with an optional filter, and fails whenever a sort descriptor is
present (its raw sort query is invalid SQL, see `sortQueryErrorMsg`);
`updateCell`, `createRow`, `createColumn` mutate the store.

Client side (virtualized data-table component): an infinite-query cache
of pages, an optimistic cell update with snapshot rollback, and
scroll/keyboard handlers that trigger page fetches.

All entity ids are modelled as `Nat` drawn from a monotone counter
(`DB.nextId`); the source uses cuid strings, whose only relevant
properties are freshness and their creation-order `id: "asc"` ordering,
both of which the counter provides.  `Cell.value` is modelled as
`String`: the schema allows NULL but every write in the repository
stores a string (`""` on creation, the request value on update).
-/

deriving instance DecidableEq for Except

namespace Solidchair

/-- A Bool-comparator insertion sort, modelling the ORDER BY of the
Prisma queries and the JS `Array.prototype.sort` call in the sorting
branch of `getTableData`. -/
def orderedInsert (le : α → α → Bool) (a : α) : List α → List α
  | [] => [a]
  | b :: l => if le a b then a :: b :: l else b :: orderedInsert le a l

def insertionSort (le : α → α → Bool) : List α → List α
  | [] => []
  | a :: l => orderedInsert le a (insertionSort le l)

theorem mem_orderedInsert (le : α → α → Bool) (a x : α) (l : List α) :
    x ∈ orderedInsert le a l ↔ x = a ∨ x ∈ l := by
  induction l with
  | nil => simp [orderedInsert]
  | cons b l ih =>
      by_cases h : le a b
      · simp [orderedInsert, h]
      · simp only [orderedInsert, if_neg h, List.mem_cons, ih]
        tauto

theorem mem_insertionSort (le : α → α → Bool) (x : α) (l : List α) :
    x ∈ insertionSort le l ↔ x ∈ l := by
  induction l with
  | nil => simp [insertionSort]
  | cons a l ih => simp [insertionSort, mem_orderedInsert, ih]

theorem pairwise_orderedInsert (le : α → α → Bool)
    (total : ∀ a b, le a b = true ∨ le b a = true)
    (htrans : ∀ a b c, le a b = true → le b c = true → le a c = true)
    (a : α) (l : List α) (h : l.Pairwise (fun x y => le x y = true)) :
    (orderedInsert le a l).Pairwise (fun x y => le x y = true) := by
  induction l with
  | nil => simp [orderedInsert]
  | cons b l ih =>
      rcases h with _ | ⟨hb, hl⟩
      by_cases hab : le a b
      · rw [orderedInsert, if_pos hab]
        refine List.Pairwise.cons ?_ (List.Pairwise.cons hb hl)
        intro x hx
        rcases List.mem_cons.mp hx with rfl | hx
        · exact hab
        · exact htrans a b x hab (hb x hx)
      · have hba : le b a = true := by
          rcases total a b with h1 | h1
          · exact absurd h1 hab
          · exact h1
        rw [orderedInsert, if_neg hab]
        refine List.Pairwise.cons ?_ (ih hl)
        intro x hx
        rcases (mem_orderedInsert le a x l).mp hx with rfl | hx
        · exact hba
        · exact hb x hx

theorem pairwise_insertionSort (le : α → α → Bool)
    (total : ∀ a b, le a b = true ∨ le b a = true)
    (htrans : ∀ a b c, le a b = true → le b c = true → le a c = true)
    (l : List α) :
    (insertionSort le l).Pairwise (fun x y => le x y = true) := by
  induction l with
  | nil => simp [insertionSort]
  | cons a l ih => exact pairwise_orderedInsert le total htrans a _ ih

/-! ## Server data model (prisma schema) -/

structure Column where
  id : Nat
  name : String
  colType : String
  order : Nat
  tableId : Nat
  deriving DecidableEq, Repr

structure Row where
  id : Nat
  tableId : Nat
  deriving DecidableEq, Repr

structure Cell where
  id : Nat
  value : String
  rowId : Nat
  columnId : Nat
  deriving DecidableEq, Repr

/-- The relational store.  Creation order is the list order; ids are
assigned from `nextId`.  The `Table`/`Base` records themselves are never
read by the operations under verification, so only their ids appear (as
`tableId` fields). -/
structure DB where
  nextId : Nat
  columns : List Column
  rows : List Row
  cells : List Cell
  deriving DecidableEq, Repr

/-! ## getTableData (tRPC query) -/

inductive Direction where
  | asc
  | desc
  deriving DecidableEq, Repr

structure Filters where
  columnId : Option Nat
  query : Option String
  deriving DecidableEq, Repr

structure Sorting where
  columnId : Nat
  direction : Direction
  deriving DecidableEq, Repr

structure GetTableDataInput where
  tableId : Nat
  cursor : Option Nat
  limit : Nat
  filters : Option Filters
  sorting : Option Sorting
  deriving DecidableEq, Repr

/-- A row as returned by `findMany` with `include: { cells: ... }`. -/
structure RowWithCells where
  id : Nat
  tableId : Nat
  cells : List Cell
  deriving DecidableEq, Repr

structure TablePage where
  rows : List RowWithCells
  columns : List Column
  nextCursor : Option Nat
  totalCount : Nat
  deriving DecidableEq, Repr

def rowCells (db : DB) (rid : Nat) : List Cell :=
  db.cells.filter (fun c => c.rowId == rid)

def includeCells (db : DB) (r : Row) : RowWithCells :=
  ⟨r.id, r.tableId, rowCells db r.id⟩

/-- Columns of a table, `orderBy: { order: "asc" }`. -/
def tableColumns (db : DB) (tid : Nat) : List Column :=
  insertionSort (fun a b => decide (a.order ≤ b.order))
    (db.columns.filter (fun c => c.tableId == tid))

/-- Case-insensitive substring containment: Prisma
`value: { contains: q, mode: "insensitive" }`. -/
def containsCI (v q : String) : Bool :=
  decide (q.data.map Char.toLower <:+: v.data.map Char.toLower)

/-- The `cells: { some: { columnId, value contains } }` row predicate of
the filtering branch. -/
def rowMatchesFilter (db : DB) (fcid : Nat) (q : String) (r : Row) : Bool :=
  db.cells.any (fun c => c.rowId == r.id && c.columnId == fcid && containsCI c.value q)

/-- The failure of the sorting branch's raw query.  The branch builds
its SQL with a `$queryRaw` tagged template whose ORDER BY direction is
an interpolation, `ORDER BY c.value ${direction}`; `$queryRaw` sends
every interpolation as a bind parameter, so the statement PostgreSQL
receives is `ORDER BY c.value $3` — a keyword cannot be a parameter,
and the query is rejected with a syntax error before any row is
ordered or returned.  The whole `getTableData` call therefore throws
whenever a sort descriptor is present. -/
def sortQueryErrorMsg : String :=
  "Raw query failed. Code: `42601`. Message: `ERROR: syntax error at or near \"$3\"`"

/-- Rows of the table matching the filter, `orderBy: { id: "asc" }`
(creation order, since ids are assigned monotonically). -/
def filteredSortedRows (db : DB) (tid fcid : Nat) (q : String) : List Row :=
  insertionSort (fun a b => decide (a.id ≤ b.id))
    (db.rows.filter (fun r => r.tableId == tid && rowMatchesFilter db fcid q r))

/-- Filtering branch: rows of the table matching the filter, ordered by
id ascending, `skip`/`take limit+1`, pop the extra row, `nextCursor`. -/
def filterBranch (db : DB) (tid skip limit fcid : Nat) (q : String)
    (columns : List Column) (total : Nat) : TablePage :=
  let sorted := filteredSortedRows db tid fcid q
  let taken := (sorted.drop skip).take (limit + 1)
  let hasMore := decide (taken.length > limit)
  { rows := (if hasMore then taken.dropLast else taken).map (includeCells db),
    columns := columns,
    nextCursor := if hasMore then some (skip + limit) else none,
    totalCount := total }

/-- Base branch: all rows of the table, ordered by id ascending, with
the same pagination scheme. -/
def baseBranch (db : DB) (tid skip limit : Nat)
    (columns : List Column) (total : Nat) : TablePage :=
  let sorted := insertionSort (fun a b => decide (a.id ≤ b.id))
    (db.rows.filter (fun r => r.tableId == tid))
  let taken := (sorted.drop skip).take (limit + 1)
  let hasMore := decide (taken.length > limit)
  { rows := (if hasMore then taken.dropLast else taken).map (includeCells db),
    columns := columns,
    nextCursor := if hasMore then some (skip + limit) else none,
    totalCount := total }

/-- `getTableData`: always computes `totalRowsCount` over the whole
table; when `sorting` is present it awaits the raw sort query, which
fails (see `sortQueryErrorMsg`), so the call propagates that error and
returns nothing; otherwise it dispatches to the filtering branch when
`filters.columnId` and `filters.query` are both present and truthy (a
JS empty-string query is falsy), else to the base branch.
`skip = cursor || 0`. -/
def getTableData (db : DB) (input : GetTableDataInput) : Except String TablePage :=
  let tid := input.tableId
  let columns := tableColumns db tid
  let total := db.rows.countP (fun r => r.tableId == tid)
  let skip := input.cursor.getD 0
  match input.sorting with
  | some _ => .error sortQueryErrorMsg
  | none =>
    match input.filters with
    | some f =>
      match f.columnId, f.query with
      | some fcid, some q =>
        if q = "" then .ok (baseBranch db tid skip input.limit columns total)
        else .ok (filterBranch db tid skip input.limit fcid q columns total)
      | _, _ => .ok (baseBranch db tid skip input.limit columns total)
    | none => .ok (baseBranch db tid skip input.limit columns total)

/-! ## Server mutations (tRPC table router) -/

/-- `updateCell`: `db.cell.update({ where: { id }, data: { value } })`.
Prisma rejects the update when no cell has the id (`none` here); on
success the matched cell's value is replaced.  The input schema accepts
any string value and the handler never reads the owning column. -/
def updateCell (db : DB) (cid : Nat) (v : String) : Option DB :=
  if db.cells.any (fun c => c.id == cid) then
    some { db with
      cells := db.cells.map (fun c =>
        if c.id == cid then { c with value := v } else c) }
  else none

/-- Fresh cells created by `cell.createMany` for one new row: one empty
cell per column, ids drawn from the counter. -/
def mkRowCells (base rid : Nat) : List Column → List Cell
  | [] => []
  | c :: cs => ⟨base, "", rid, c.id⟩ :: mkRowCells (base + 1) rid cs

/-- Fresh cells created by `cell.createMany` for one new column: one
empty cell per existing row of the table. -/
def mkColCells (base cid : Nat) : List Row → List Cell
  | [] => []
  | r :: rs => ⟨base, "", r.id, cid⟩ :: mkColCells (base + 1) cid rs

/-- `createRow`: create the row, then one empty cell per column of the
table. -/
def createRow (db : DB) (tid : Nat) : DB :=
  let rid := db.nextId
  let cols := db.columns.filter (fun c => c.tableId == tid)
  { db with
    nextId := rid + 1 + cols.length,
    rows := db.rows ++ [⟨rid, tid⟩],
    cells := db.cells ++ mkRowCells (rid + 1) rid cols }

/-- `createColumn`: order is the current column count of the table; then
backfill one empty cell per existing row of the table. -/
def createColumn (db : DB) (tid : Nat) (name ty : String) : DB :=
  let order := db.columns.countP (fun c => c.tableId == tid)
  let cid := db.nextId
  let trows := db.rows.filter (fun r => r.tableId == tid)
  { db with
    nextId := cid + 1 + trows.length,
    columns := db.columns ++ [⟨cid, name, ty, order, tid⟩],
    cells := db.cells ++ mkColCells (cid + 1) cid trows }

inductive Op where
  | addRow (tid : Nat)
  | addColumn (tid : Nat) (name ty : String)
  deriving DecidableEq, Repr

def applyOp (db : DB) : Op → DB
  | .addRow tid => createRow db tid
  | .addColumn tid name ty => createColumn db tid name ty

def applyOps (db : DB) (ops : List Op) : DB := ops.foldl applyOp db

/-- Cell completeness: every (row, column) pair of a table has exactly
one cell. -/
def cellComplete (db : DB) : Prop :=
  ∀ r ∈ db.rows, ∀ c ∈ db.columns, r.tableId = c.tableId →
    db.cells.countP (fun cl => cl.rowId == r.id && cl.columnId == c.id) = 1

/-- Well-formedness maintained by the id counter: every stored id is
below `nextId`, and row/column ids are duplicate-free. -/
def wfDB (db : DB) : Prop :=
  (∀ r ∈ db.rows, r.id < db.nextId) ∧
  (∀ c ∈ db.columns, c.id < db.nextId) ∧
  (∀ cl ∈ db.cells, cl.id < db.nextId ∧ cl.rowId < db.nextId ∧ cl.columnId < db.nextId) ∧
  (db.rows.map Row.id).Nodup ∧
  (db.columns.map Column.id).Nodup

instance (db : DB) : Decidable (cellComplete db) := by
  unfold cellComplete; infer_instance

instance (db : DB) : Decidable (wfDB db) := by
  unfold wfDB; infer_instance

/-! ## Client page cache (react-query infinite data) -/

/-- The infinite-query cache entry for the active view query. -/
structure InfiniteData where
  pages : List TablePage
  pageParams : List (Option Nat)
  deriving DecidableEq, Repr

/-- `flatData = infiniteData.pages.flatMap(page => page.rows)`. -/
def flatData (d : InfiniteData) : List RowWithCells :=
  d.pages.flatMap (fun p => p.rows)

def allCells (d : InfiniteData) : List Cell :=
  (flatData d).flatMap (fun r => r.cells)

/-- Value shown by the flattened cache for the cell with the given id. -/
def cellValueInCache (d : InfiniteData) (cid : Nat) : Option String :=
  ((allCells d).find? (fun c => c.id == cid)).map (fun c => c.value)

/-- The `setInfiniteData` updater of the optimistic update: rebuild
every page, every row, replacing the value of cells whose id matches. -/
def pointUpdate (old : InfiniteData) (cellId : Nat) (v : String) : InfiniteData :=
  { old with
    pages := old.pages.map (fun page =>
      { page with rows := page.rows.map (fun row =>
        { row with cells := row.cells.map (fun cell =>
          if cell.id == cellId then { cell with value := v } else cell) }) }) }

/-- The updater as passed to `setInfiniteData`, including the
`if (!old) return { pages: [], pageParams: [] }` guard. -/
def updaterFn (cellId : Nat) (v : String) : Option InfiniteData → InfiniteData
  | none => { pages := [], pageParams := [] }
  | some old => pointUpdate old cellId v

/-- `onMutate`: snapshot the previous data, optimistically update the
cache, return the snapshot as mutation context. -/
def onMutate (cache : Option InfiniteData) (cellId : Nat) (v : String) :
    Option InfiniteData × Option InfiniteData :=
  (some (updaterFn cellId v cache), cache)

/-- `onError`: restore the snapshot if one was captured, and raise a
toast notification.  Returns the new cache and toast list. -/
def onError (cache : Option InfiniteData) (previousData : Option InfiniteData)
    (msg : String) (toasts : List String) :
    Option InfiniteData × List String :=
  (match previousData with
    | some prev => some prev
    | none => cache,
   toasts ++ ["Failed to update: " ++ msg])

/-! ## Scroll / keyboard fetch triggering (grid component) -/

/-- Fetch-relevant component state: react-query's `hasNextPage` and the
number of page requests in flight (`isFetching` is `inFlight != 0`). -/
structure GridFetchState where
  hasNextPage : Bool
  inFlight : Nat
  deriving DecidableEq, Repr

inductive GridEvent where
  | scroll (scrollHeight scrollTop clientHeight : Nat)
  | keyNav (nextRow flatLen : Nat)
  | fetchDone (moreAfter : Bool)
  deriving DecidableEq, Repr

/-- The scroll handler's guard: `if (!hasNextPage || isFetching) return`
then fetch when within 300px of the bottom. -/
def shouldFetchOnScroll (st : GridFetchState) (sh stp ch : Nat) : Bool :=
  st.hasNextPage && st.inFlight == 0 &&
    decide ((sh : Int) - (stp : Int) - (ch : Int) < 300)

/-- The keyboard-navigation guard: past the loaded rows, with a next
page and no fetch in flight. -/
def shouldFetchOnKeyNav (st : GridFetchState) (nextRow flatLen : Nat) : Bool :=
  decide (nextRow ≥ flatLen) && st.hasNextPage && st.inFlight == 0

def gridStep (st : GridFetchState) : GridEvent → GridFetchState
  | .scroll sh stp ch =>
      if shouldFetchOnScroll st sh stp ch then
        { st with inFlight := st.inFlight + 1 }
      else st
  | .keyNav nextRow flatLen =>
      if shouldFetchOnKeyNav st nextRow flatLen then
        { st with inFlight := st.inFlight + 1 }
      else st
  | .fetchDone more => { hasNextPage := more, inFlight := st.inFlight - 1 }

def runGrid (st : GridFetchState) (evs : List GridEvent) : GridFetchState :=
  evs.foldl gridStep st

/-! ## Branch-level helper lemmas -/

theorem filterBranch_totalCount (db : DB) (tid skip limit fcid : Nat) (q : String)
    (columns : List Column) (total : Nat) :
    (filterBranch db tid skip limit fcid q columns total).totalCount = total := rfl

theorem baseBranch_totalCount (db : DB) (tid skip limit : Nat)
    (columns : List Column) (total : Nat) :
    (baseBranch db tid skip limit columns total).totalCount = total := rfl

/-! ## Concrete stores used by the scenario claims -/

/-- Table 1 with one number-typed column (id 2) and three rows created
in order 3, 4, 5, whose cells in that column hold "3", "10", "1". -/
def dbSortScen : DB :=
  ⟨100, [⟨2, "Number", "number", 0, 1⟩], [⟨3, 1⟩, ⟨4, 1⟩, ⟨5, 1⟩],
    [⟨6, "3", 3, 2⟩, ⟨7, "10", 4, 2⟩, ⟨8, "1", 5, 2⟩]⟩

/-- Sort by the number column, descending, no filter. -/
def sortScenInput : GetTableDataInput := ⟨1, none, 50, none, some ⟨2, .desc⟩⟩

/-- Table 0 with 120 rows (ids 0..119 in creation order) and no columns. -/
def db120 : DB := ⟨200, [], (List.range 120).map (fun i => ⟨i, 0⟩), []⟩

/-- Table 1, text column 2, rows 3 and 4 with cell values "abc" and
"xyz"; the filter "abc" on column 2 matches exactly one row. -/
def dbFilterScen : DB :=
  ⟨100, [⟨2, "Title", "text", 0, 1⟩], [⟨3, 1⟩, ⟨4, 1⟩],
    [⟨5, "abc", 3, 2⟩, ⟨6, "xyz", 4, 2⟩]⟩

def filterScenInput : GetTableDataInput := ⟨1, none, 50, some ⟨some 2, some "abc"⟩, none⟩

/-! ## Claim C1 -/

/-- Claim C1 counterexample: with the filter "abc" active on column 2 of
`dbFilterScen`, exactly one of the two rows matches, yet `getTableData`
returns `totalCount = 2` (the unfiltered table row count), so the
claimed equality between `totalCount` and the filtered row count fails. -/
theorem totalCount_filter_counterexample :
    (getTableData dbFilterScen filterScenInput).map (fun p => p.totalCount)
      = .ok 2 ∧
    (dbFilterScen.rows.countP
      (fun r => r.tableId == 1 && rowMatchesFilter dbFilterScen 2 "abc" r)) = 1 ∧
    (getTableData dbFilterScen filterScenInput).map (fun p => p.totalCount)
      ≠ .ok (dbFilterScen.rows.countP
        (fun r => r.tableId == 1 && rowMatchesFilter dbFilterScen 2 "abc" r)) := by
  refine ⟨by decide, by decide, by decide⟩

/-- Claim C1 (amended): whenever a `getTableData` call returns a page,
its `totalCount` is the full row count of the table, independent of
cursor and filter — it ignores pagination but also ignores the active
filter; and every call without a sort descriptor (the calls that do
return) returns a page with exactly that `totalCount`. -/
theorem totalCount_full_table_count (db : DB) (input : GetTableDataInput) :
    (∀ page, getTableData db input = .ok page →
      page.totalCount = db.rows.countP (fun r => r.tableId == input.tableId)) ∧
    (input.sorting = none →
      ∃ page, getTableData db input = .ok page ∧
        page.totalCount = db.rows.countP (fun r => r.tableId == input.tableId)) := by
  obtain ⟨tid, cursor, limit, filters, sorting⟩ := input
  unfold getTableData
  cases sorting with
  | some s =>
      refine ⟨fun page h => by simp at h, fun h => by simp at h⟩
  | none =>
    refine ⟨?_, fun _ => ?_⟩
    · intro page h
      cases filters with
      | none =>
          injection h with h
          subst h
          exact baseBranch_totalCount ..
      | some f =>
        obtain ⟨fc, fq⟩ := f
        cases fc <;> cases fq
        · injection h with h
          subst h
          exact baseBranch_totalCount ..
        · injection h with h
          subst h
          exact baseBranch_totalCount ..
        · injection h with h
          subst h
          exact baseBranch_totalCount ..
        · dsimp only at h
          split at h <;> injection h with h <;> subst h
          · exact baseBranch_totalCount ..
          · exact filterBranch_totalCount ..
    · cases filters with
      | none => exact ⟨_, rfl, baseBranch_totalCount ..⟩
      | some f =>
        obtain ⟨fc, fq⟩ := f
        cases fc <;> cases fq
        · exact ⟨_, rfl, baseBranch_totalCount ..⟩
        · exact ⟨_, rfl, baseBranch_totalCount ..⟩
        · exact ⟨_, rfl, baseBranch_totalCount ..⟩
        · dsimp only
          split
          · exact ⟨_, rfl, baseBranch_totalCount ..⟩
          · exact ⟨_, rfl, filterBranch_totalCount ..⟩

/-! ## Claim C2 -/

/-- Claim C2 (code bug): every `getTableData` call with a sort
descriptor fails with the raw-query error — `$queryRaw` binds the
interpolated ASC/DESC keyword as a parameter, so PostgreSQL receives
`ORDER BY c.value $3` and rejects the statement — and in particular the
descending sort of the number-typed column of `dbSortScen` over the
values "3", "10", "1" returns no rows at all, in neither
string-comparison nor numeric order. -/
theorem sorted_query_raw_error :
    (∀ (db : DB) (tid : Nat) (cursor : Option Nat) (limit : Nat)
        (f : Option Filters) (s : Sorting),
      getTableData db ⟨tid, cursor, limit, f, some s⟩ = .error sortQueryErrorMsg) ∧
    getTableData dbSortScen sortScenInput = .error sortQueryErrorMsg ∧
    ∀ page, getTableData dbSortScen sortScenInput ≠ .ok page :=
  ⟨fun _ _ _ _ _ _ => rfl, rfl, fun _ h => by simp [getTableData, sortScenInput] at h⟩

/-! ## Claim C3 -/

/-- Claim C3: when both a sort descriptor and a filter are supplied,
the filter is not applied — the result equals the call with the filter
removed. -/
theorem sort_path_ignores_filter (db : DB) (tid : Nat) (cursor : Option Nat)
    (limit : Nat) (f : Filters) (s : Sorting) :
    getTableData db ⟨tid, cursor, limit, some f, some s⟩ =
      getTableData db ⟨tid, cursor, limit, none, some s⟩ := rfl

/-! ## Claim C5 -/

/-- Claim C5: on a 120-row table with pageSize 50 and no sort or
filter, the first fetch returns rows 0-49 with `nextCursor = 50`, the
second (cursor 50) rows 50-99 with `nextCursor = 100`, and the third
(cursor 100) rows 100-119 with `nextCursor = none`. -/
theorem pagination_120_rows_scenario :
    (getTableData db120 ⟨0, none, 50, none, none⟩).map
        (fun p => p.rows.map (fun r => r.id)) = .ok (List.range' 0 50) ∧
    (getTableData db120 ⟨0, none, 50, none, none⟩).map
        (fun p => p.nextCursor) = .ok (some 50) ∧
    (getTableData db120 ⟨0, some 50, 50, none, none⟩).map
        (fun p => p.rows.map (fun r => r.id)) = .ok (List.range' 50 50) ∧
    (getTableData db120 ⟨0, some 50, 50, none, none⟩).map
        (fun p => p.nextCursor) = .ok (some 100) ∧
    (getTableData db120 ⟨0, some 100, 50, none, none⟩).map
        (fun p => p.rows.map (fun r => r.id)) = .ok (List.range' 100 20) ∧
    (getTableData db120 ⟨0, some 100, 50, none, none⟩).map
        (fun p => p.nextCursor) = .ok (none : Option Nat) := by
  refine ⟨by decide, by decide, by decide, by decide, by decide, by decide⟩

/-! ## Claim C9 -/

theorem shouldFetchOnScroll_inFlight_zero {st : GridFetchState} {sh stp ch : Nat}
    (hg : shouldFetchOnScroll st sh stp ch = true) : st.inFlight = 0 := by
  simp only [shouldFetchOnScroll, Bool.and_eq_true, beq_iff_eq] at hg
  exact hg.1.2

theorem shouldFetchOnKeyNav_inFlight_zero {st : GridFetchState} {nextRow flatLen : Nat}
    (hg : shouldFetchOnKeyNav st nextRow flatLen = true) : st.inFlight = 0 := by
  simp only [shouldFetchOnKeyNav, Bool.and_eq_true, beq_iff_eq] at hg
  exact hg.2

theorem gridStep_inFlight_le_one (st : GridFetchState) (e : GridEvent)
    (h : st.inFlight ≤ 1) : (gridStep st e).inFlight ≤ 1 := by
  cases e with
  | scroll sh stp ch =>
      by_cases hg : shouldFetchOnScroll st sh stp ch
      · have h0 := shouldFetchOnScroll_inFlight_zero hg
        simp [gridStep, hg, h0]
      · simpa [gridStep, hg] using h
  | keyNav nextRow flatLen =>
      by_cases hg : shouldFetchOnKeyNav st nextRow flatLen
      · have h0 := shouldFetchOnKeyNav_inFlight_zero hg
        simp [gridStep, hg, h0]
      · simpa [gridStep, hg] using h
  | fetchDone more =>
      simp only [gridStep]
      omega

theorem runGrid_inFlight_le_one (evs : List GridEvent) (st : GridFetchState)
    (h : st.inFlight ≤ 1) : (runGrid st evs).inFlight ≤ 1 := by
  induction evs generalizing st with
  | nil => simpa [runGrid] using h
  | cons e evs ih =>
      simp only [runGrid, List.foldl_cons]
      exact ih (gridStep st e) (gridStep_inFlight_le_one st e h)

/-- Claim C9: starting with no fetch in flight, no sequence of scroll,
keyboard-navigation and fetch-completion events ever produces more than
one page request in flight; and each handler issues a request (changes
the in-flight count) exactly when the scroll position is within 300px
of the bottom (resp. navigation goes past the loaded rows), a next page
exists, and no fetch is already in flight. -/
theorem single_fetch_in_flight :
    (∀ (hnp : Bool) (evs : List GridEvent),
      (runGrid ⟨hnp, 0⟩ evs).inFlight ≤ 1) ∧
    (∀ (st : GridFetchState) (sh stp ch : Nat),
      (gridStep st (.scroll sh stp ch)).inFlight ≠ st.inFlight ↔
        st.hasNextPage = true ∧ st.inFlight = 0 ∧
          (sh : Int) - (stp : Int) - (ch : Int) < 300) ∧
    (∀ (st : GridFetchState) (nextRow flatLen : Nat),
      (gridStep st (.keyNav nextRow flatLen)).inFlight ≠ st.inFlight ↔
        flatLen ≤ nextRow ∧ st.hasNextPage = true ∧ st.inFlight = 0) := by
  refine ⟨fun hnp evs => runGrid_inFlight_le_one evs _ (by simp), ?_, ?_⟩
  · intro st sh stp ch
    have hiff : shouldFetchOnScroll st sh stp ch = true ↔
        (st.hasNextPage = true ∧ st.inFlight = 0 ∧
          (sh : Int) - (stp : Int) - (ch : Int) < 300) := by
      simp [shouldFetchOnScroll, and_assoc]
    rw [← hiff]
    by_cases hg : shouldFetchOnScroll st sh stp ch <;> simp [gridStep, hg]
  · intro st nextRow flatLen
    have hiff : shouldFetchOnKeyNav st nextRow flatLen = true ↔
        (flatLen ≤ nextRow ∧ st.hasNextPage = true ∧ st.inFlight = 0) := by
      simp [shouldFetchOnKeyNav, and_assoc]
    rw [← hiff]
    by_cases hg : shouldFetchOnKeyNav st nextRow flatLen <;> simp [gridStep, hg]

/-! ## Claims C4 and C6: optimistic update on the page cache -/

theorem allCells_pointUpdate (d : InfiniteData) (cid : Nat) (v : String) :
    allCells (pointUpdate d cid v) =
      (allCells d).map
        (fun c => if c.id == cid then { c with value := v } else c) := by
  simp only [allCells, flatData, pointUpdate, List.flatMap_map, List.map_flatMap,
    List.flatMap_assoc]

theorem cellValueInCache_pointUpdate (d : InfiniteData) (cid : Nat) (v a : String)
    (h : cellValueInCache d cid = some a) :
    cellValueInCache (pointUpdate d cid v) cid = some v := by
  unfold cellValueInCache at h ⊢
  rw [allCells_pointUpdate, List.find?_map]
  have hp : ((fun c : Cell => c.id == cid) ∘
      (fun c : Cell => if c.id == cid then { c with value := v } else c)) =
      (fun c : Cell => c.id == cid) := by
    funext c
    simp only [Function.comp_apply]
    by_cases hc : c.id = cid
    · subst hc; simp
    · simp [hc]
  rw [hp]
  obtain ⟨c0, hc0⟩ : ∃ c0, (allCells d).find? (fun c => c.id == cid) = some c0 := by
    cases hfind : (allCells d).find? (fun c => c.id == cid) with
    | none => rw [hfind] at h; simp at h
    | some c0 => exact ⟨c0, rfl⟩
  have hcid : c0.id = cid := by simpa using List.find?_some hc0
  rw [hc0]
  simp [hcid]

/-- Claim C4: committing value `b` for cell `cid` through the optimistic
`onMutate` immediately makes the flattened cache show `b` for that cell;
the mutation context captures the exact pre-mutation cache, `onError`
restores precisely that snapshot (so the cell shows its old value `a`
again and the cache never retains the rejected value), and a
user-visible "Failed to update" toast is appended. -/
theorem optimistic_commit_rollback (d : InfiniteData) (cid : Nat)
    (a b msg : String) (toasts : List String)
    (h : cellValueInCache d cid = some a) :
    cellValueInCache (updaterFn cid b (some d)) cid = some b ∧
    (onMutate (some d) cid b).2 = some d ∧
    (onError (onMutate (some d) cid b).1 (onMutate (some d) cid b).2 msg toasts).1
      = some d ∧
    cellValueInCache d cid = some a ∧
    (onError (onMutate (some d) cid b).1 (onMutate (some d) cid b).2 msg toasts).2
      = toasts ++ ["Failed to update: " ++ msg] :=
  ⟨cellValueInCache_pointUpdate d cid b a h, rfl, rfl, h, rfl⟩

/-- A one-page cache holding a single row whose single cell (id 20)
has value "A". -/
def cacheScen : InfiniteData :=
  ⟨[{ rows := [⟨10, 1, [⟨20, "A", 10, 2⟩]⟩],
      columns := [⟨2, "Title", "text", 0, 1⟩],
      nextCursor := none, totalCount := 1 }], [none]⟩

theorem optimistic_commit_rollback_witness :
    cellValueInCache cacheScen 20 = some "A" ∧
    (cellValueInCache (updaterFn 20 "B" (some cacheScen)) 20 = some "B" ∧
     (onMutate (some cacheScen) 20 "B").2 = some cacheScen ∧
     (onError (onMutate (some cacheScen) 20 "B").1 (onMutate (some cacheScen) 20 "B").2
        "boom" []).1 = some cacheScen ∧
     cellValueInCache cacheScen 20 = some "A" ∧
     (onError (onMutate (some cacheScen) 20 "B").1 (onMutate (some cacheScen) 20 "B").2
        "boom" []).2 = [] ++ ["Failed to update: " ++ "boom"]) :=
  ⟨by decide, optimistic_commit_rollback cacheScen 20 "A" "B" "boom" [] (by decide)⟩

/-- Claim C6: the optimistic point update changes at most the `value`
field of cells whose id matches, and nothing else: page cursors, total
counts, column lists, page parameters, the rows of each page (identity,
order and page assignment) and each row's cell-id list are unchanged;
on the flattened cell sequence the update is exactly a pointwise map
that rewrites the matching cell's value and fixes every other cell. -/
theorem pointUpdate_frame (d : InfiniteData) (cid : Nat) (v : String) :
    (pointUpdate d cid v).pages.map (fun p => p.nextCursor)
      = d.pages.map (fun p => p.nextCursor) ∧
    (pointUpdate d cid v).pages.map (fun p => p.totalCount)
      = d.pages.map (fun p => p.totalCount) ∧
    (pointUpdate d cid v).pages.map (fun p => p.columns)
      = d.pages.map (fun p => p.columns) ∧
    (pointUpdate d cid v).pages.map (fun p => p.rows.map (fun r => (r.id, r.tableId)))
      = d.pages.map (fun p => p.rows.map (fun r => (r.id, r.tableId))) ∧
    (pointUpdate d cid v).pages.map
        (fun p => p.rows.map (fun r => r.cells.map (fun c => c.id)))
      = d.pages.map (fun p => p.rows.map (fun r => r.cells.map (fun c => c.id))) ∧
    (pointUpdate d cid v).pageParams = d.pageParams ∧
    allCells (pointUpdate d cid v) =
      (allCells d).map
        (fun c => if c.id == cid then { c with value := v } else c) ∧
    (allCells (pointUpdate d cid v)).map (fun c => (c.id, c.rowId, c.columnId))
      = (allCells d).map (fun c => (c.id, c.rowId, c.columnId)) ∧
    (∀ c ∈ allCells d, c.id ≠ cid → c ∈ allCells (pointUpdate d cid v)) := by
  refine ⟨?_, ?_, ?_, ?_, ?_, rfl, allCells_pointUpdate d cid v, ?_, ?_⟩
  · rw [pointUpdate, List.map_map]; rfl
  · rw [pointUpdate, List.map_map]; rfl
  · rw [pointUpdate, List.map_map]; rfl
  · rw [pointUpdate, List.map_map]
    refine List.map_congr_left (fun p _ => ?_)
    simp only [Function.comp_apply]
    rw [List.map_map]
    rfl
  · rw [pointUpdate, List.map_map]
    refine List.map_congr_left (fun p _ => ?_)
    simp only [Function.comp_apply]
    rw [List.map_map]
    refine List.map_congr_left (fun r _ => ?_)
    simp only [Function.comp_apply]
    rw [List.map_map]
    refine List.map_congr_left (fun c _ => ?_)
    simp only [Function.comp_apply]
    by_cases hc : c.id = cid
    · subst hc; simp
    · simp [hc]
  · rw [allCells_pointUpdate, List.map_map]
    refine List.map_congr_left (fun c _ => ?_)
    simp only [Function.comp_apply]
    by_cases hc : c.id = cid
    · subst hc; simp
    · simp [hc]
  · intro c hc hne
    rw [allCells_pointUpdate]
    refine List.mem_map.mpr ⟨c, hc, ?_⟩
    simp [hne]

/-! ## Claim C7 -/

/-- Taking `limit+1` elements and popping the extra one when more than
`limit` were obtained is the same as taking `limit` elements. -/
theorem window_take_pop (l : List α) (limit : Nat) :
    (if (l.take (limit + 1)).length > limit then (l.take (limit + 1)).dropLast
      else l.take (limit + 1)) = l.take limit := by
  by_cases h : limit < l.length
  · have hlen : (l.take (limit + 1)).length = limit + 1 := by
      simp only [List.length_take]
      omega
    rw [if_pos (by rw [hlen]; omega)]
    rw [List.dropLast_eq_take, hlen]
    simp only [Nat.add_sub_cancel]
    rw [List.take_take]
    congr 1
    omega
  · have hle : l.length ≤ limit := Nat.le_of_not_lt h
    have h1 : l.take (limit + 1) = l := List.take_of_length_le (Nat.le_succ_of_le hle)
    have h2 : l.take limit = l := List.take_of_length_le hle
    rw [h1, h2, if_neg (by omega)]

/-- The extra `+1` row was obtained iff rows remain past the window. -/
theorem window_hasMore (l : List α) (limit : Nat) :
    ((l.take (limit + 1)).length > limit) ↔ limit < l.length := by
  simp only [List.length_take]
  omega

theorem filterBranch_rows (db : DB) (tid skip limit fcid : Nat) (q : String)
    (columns : List Column) (total : Nat) :
    (filterBranch db tid skip limit fcid q columns total).rows
      = (((filteredSortedRows db tid fcid q).drop skip).take limit).map
          (includeCells db) := by
  unfold filterBranch
  dsimp only
  congr 1
  simpa [decide_eq_true_eq] using
    window_take_pop ((filteredSortedRows db tid fcid q).drop skip) limit

theorem filterBranch_nextCursor (db : DB) (tid skip limit fcid : Nat) (q : String)
    (columns : List Column) (total : Nat) :
    (filterBranch db tid skip limit fcid q columns total).nextCursor
      = (if limit < ((filteredSortedRows db tid fcid q).drop skip).length
          then some (skip + limit) else none) := by
  unfold filterBranch
  dsimp only
  simp only [decide_eq_true_eq]
  by_cases h : limit < ((filteredSortedRows db tid fcid q).drop skip).length
  · rw [if_pos ((window_hasMore _ _).mpr h), if_pos h]
  · rw [if_neg (fun hc => h ((window_hasMore _ _).mp hc)), if_neg h]

theorem filteredSortedRows_pairwise (db : DB) (tid fcid : Nat) (q : String) :
    (filteredSortedRows db tid fcid q).Pairwise (fun a b => a.id ≤ b.id) := by
  have hp := pairwise_insertionSort (fun a b : Row => decide (a.id ≤ b.id))
    (fun a b => by
      rcases Nat.le_total a.id b.id with h | h
      · exact Or.inl (by simpa using h)
      · exact Or.inr (by simpa using h))
    (fun a b c h1 h2 => by
      simp only [decide_eq_true_eq] at h1 h2 ⊢
      omega)
    (db.rows.filter (fun r => r.tableId == tid && rowMatchesFilter db fcid q r))
  exact hp.imp (fun h => by simpa using h)

theorem mem_filteredSortedRows (db : DB) (tid fcid : Nat) (q : String) (r : Row)
    (h : r ∈ filteredSortedRows db tid fcid q) :
    r ∈ db.rows ∧ r.tableId = tid ∧ rowMatchesFilter db fcid q r = true := by
  rw [filteredSortedRows, mem_insertionSort, List.mem_filter] at h
  refine ⟨h.1, ?_, ?_⟩
  · have := h.2
    simp only [Bool.and_eq_true, beq_iff_eq] at this
    exact this.1
  · have := h.2
    simp only [Bool.and_eq_true] at this
    exact this.2

/-- Claim C7: a filter-only query returns exactly the window
`[cursor, cursor+limit)` of the rows whose designated column has a cell
whose value contains the filter text case-insensitively, sorted by id
(creation order), with `nextCursor = cursor + limit` exactly when
matching rows remain, the same cursor scheme as the unfiltered path;
row ids come out sorted ascending and every returned row matches the
filter. -/
theorem filter_query_spec (db : DB) (tid : Nat) (cursor : Option Nat)
    (limit fcid : Nat) (q : String) (hq : q ≠ "") :
    (getTableData db ⟨tid, cursor, limit, some ⟨some fcid, some q⟩, none⟩).map
        (fun p => p.rows)
      = .ok ((((filteredSortedRows db tid fcid q).drop (cursor.getD 0)).take limit).map
          (includeCells db)) ∧
    (getTableData db ⟨tid, cursor, limit, some ⟨some fcid, some q⟩, none⟩).map
        (fun p => p.nextCursor)
      = .ok (if limit < ((filteredSortedRows db tid fcid q).drop (cursor.getD 0)).length
          then some (cursor.getD 0 + limit) else none) ∧
    (∀ page, getTableData db ⟨tid, cursor, limit, some ⟨some fcid, some q⟩, none⟩
        = .ok page →
      (page.rows.map (fun r => r.id)).Pairwise (fun i j => i ≤ j) ∧
      ∀ rw ∈ page.rows,
        ∃ r ∈ db.rows, rw = includeCells db r ∧ r.tableId = tid ∧
          rowMatchesFilter db fcid q r = true) := by
  have hres : getTableData db ⟨tid, cursor, limit, some ⟨some fcid, some q⟩, none⟩
      = .ok (filterBranch db tid (cursor.getD 0) limit fcid q (tableColumns db tid)
          (db.rows.countP (fun r => r.tableId == tid))) := by
    unfold getTableData
    dsimp only
    rw [if_neg hq]
  have hwindow : List.Sublist
      (((filteredSortedRows db tid fcid q).drop (cursor.getD 0)).take limit)
      (filteredSortedRows db tid fcid q) :=
    (List.take_sublist _ _).trans (List.drop_sublist _ _)
  refine ⟨?_, ?_, ?_⟩
  · rw [hres]
    simp only [Except.map]
    rw [filterBranch_rows]
  · rw [hres]
    simp only [Except.map]
    rw [filterBranch_nextCursor]
  · intro page hpage
    rw [hres] at hpage
    injection hpage with hpage
    subst hpage
    constructor
    · rw [filterBranch_rows, List.map_map]
      rw [List.pairwise_map]
      exact List.Pairwise.sublist hwindow (filteredSortedRows_pairwise db tid fcid q)
    · intro rw1 hrw
      rw [filterBranch_rows] at hrw
      obtain ⟨r, hr, rfl⟩ := List.mem_map.mp hrw
      have hr2 := mem_filteredSortedRows db tid fcid q r (hwindow.mem hr)
      exact ⟨r, hr2.1, rfl, hr2.2.1, hr2.2.2⟩

theorem filter_query_spec_witness :
    ("abc" : String) ≠ "" ∧
    ((getTableData dbFilterScen ⟨1, none, 50, some ⟨some 2, some "abc"⟩, none⟩).map
        (fun p => p.rows)
      = .ok ((((filteredSortedRows dbFilterScen 1 2 "abc").drop
            ((none : Option Nat).getD 0)).take 50).map (includeCells dbFilterScen)) ∧
    (getTableData dbFilterScen ⟨1, none, 50, some ⟨some 2, some "abc"⟩, none⟩).map
        (fun p => p.nextCursor)
      = .ok (if 50 < ((filteredSortedRows dbFilterScen 1 2 "abc").drop
            ((none : Option Nat).getD 0)).length
          then some ((none : Option Nat).getD 0 + 50) else none) ∧
    (∀ page, getTableData dbFilterScen ⟨1, none, 50, some ⟨some 2, some "abc"⟩, none⟩
        = .ok page →
      (page.rows.map (fun r => r.id)).Pairwise (fun i j => i ≤ j) ∧
      ∀ rw ∈ page.rows,
        ∃ r ∈ dbFilterScen.rows, rw = includeCells dbFilterScen r ∧ r.tableId = 1 ∧
          rowMatchesFilter dbFilterScen 2 "abc" r = true)) :=
  ⟨by decide, filter_query_spec dbFilterScen 1 none 50 2 "abc" (by decide)⟩

/-! ## Claim C10 -/

/-- Claim C10: the `updateCell` mutation performs no type validation.
Whenever a cell with the given id exists, the update succeeds for every
string value and stores it verbatim (every cell carrying that id ends
with exactly the given value), touching nothing else; and the result's
cells are entirely independent of the column table, hence of the owning
column's declared type. -/
theorem updateCell_no_type_validation (db : DB) (cid : Nat) (v : String)
    (h : db.cells.any (fun c => c.id == cid) = true) :
    updateCell db cid v = some { db with
        cells := db.cells.map
          (fun c => if c.id == cid then { c with value := v } else c) } ∧
    (∀ db', updateCell db cid v = some db' →
      (∀ c ∈ db'.cells, c.id = cid → c.value = v) ∧
      db'.columns = db.columns ∧ db'.rows = db.rows ∧ db'.nextId = db.nextId ∧
      db'.cells.map (fun c => (c.id, c.rowId, c.columnId))
        = db.cells.map (fun c => (c.id, c.rowId, c.columnId))) ∧
    (∀ cols' : List Column,
      (updateCell { db with columns := cols' } cid v).map (fun d => d.cells)
        = (updateCell db cid v).map (fun d => d.cells)) := by
  have h1 : updateCell db cid v = some { db with
      cells := db.cells.map
        (fun c => if c.id == cid then { c with value := v } else c) } := by
    unfold updateCell
    rw [if_pos h]
  refine ⟨h1, ?_, ?_⟩
  · intro db' heq
    rw [h1] at heq
    injection heq with heq
    subst heq
    refine ⟨?_, rfl, rfl, rfl, ?_⟩
    · intro c hc hcid
      obtain ⟨c0, hc0, rfl⟩ := List.mem_map.mp hc
      by_cases h0 : c0.id = cid
      · subst h0; simp
      · exfalso
        apply h0
        have : (if c0.id == cid then { c0 with value := v } else c0) = c0 := by
          simp [h0]
        rw [this] at hcid
        exact hcid
    · rw [List.map_map]
      refine List.map_congr_left (fun c _ => ?_)
      simp only [Function.comp_apply]
      by_cases h0 : c.id = cid
      · subst h0; simp
      · simp [h0]
  · intro cols'
    unfold updateCell
    dsimp only
    by_cases hany : db.cells.any (fun c => c.id == cid)
    · rw [if_pos hany, if_pos hany]
      rfl
    · rw [if_neg hany, if_neg hany]

theorem updateCell_no_type_validation_witness :
    dbSortScen.cells.any (fun c => c.id == 6) = true ∧
    (updateCell dbSortScen 6 "hello" = some { dbSortScen with
        cells := dbSortScen.cells.map
          (fun c => if c.id == 6 then { c with value := "hello" } else c) } ∧
    (∀ db', updateCell dbSortScen 6 "hello" = some db' →
      (∀ c ∈ db'.cells, c.id = 6 → c.value = "hello") ∧
      db'.columns = dbSortScen.columns ∧ db'.rows = dbSortScen.rows ∧
      db'.nextId = dbSortScen.nextId ∧
      db'.cells.map (fun c => (c.id, c.rowId, c.columnId))
        = dbSortScen.cells.map (fun c => (c.id, c.rowId, c.columnId))) ∧
    (∀ cols' : List Column,
      (updateCell { dbSortScen with columns := cols' } 6 "hello").map (fun d => d.cells)
        = (updateCell dbSortScen 6 "hello").map (fun d => d.cells))) :=
  ⟨by decide, updateCell_no_type_validation dbSortScen 6 "hello" (by decide)⟩

/-! ## Claim C8: cell completeness under createRow / createColumn -/

theorem mkRowCells_countP_other (rid rid' cid' : Nat) (cols : List Column)
    (hne : rid' ≠ rid) : ∀ base,
    (mkRowCells base rid cols).countP
      (fun cl => cl.rowId == rid' && cl.columnId == cid') = 0 := by
  induction cols with
  | nil => intro base; rfl
  | cons c cs ih =>
      intro base
      simp only [mkRowCells, List.countP_cons, ih (base + 1)]
      have hp : ((rid == rid') && (c.id == cid')) = false := by
        have : (rid == rid') = false := by
          simp [Ne.symm hne]
        simp [this]
      simp [hp]

theorem mkRowCells_countP_self (rid cid' : Nat) (cols : List Column) : ∀ base,
    (mkRowCells base rid cols).countP
      (fun cl => cl.rowId == rid && cl.columnId == cid')
      = cols.countP (fun c => c.id == cid') := by
  induction cols with
  | nil => intro base; rfl
  | cons c cs ih =>
      intro base
      simp only [mkRowCells, List.countP_cons, ih (base + 1)]
      congr 1
      simp

theorem mkRowCells_mem (rid : Nat) (cols : List Column) (cl : Cell) : ∀ base,
    cl ∈ mkRowCells base rid cols →
    cl.rowId = rid ∧ cl.id < base + cols.length ∧
      cl.columnId ∈ cols.map Column.id := by
  induction cols with
  | nil => intro base h; simp [mkRowCells] at h
  | cons c cs ih =>
      intro base h
      simp only [mkRowCells, List.mem_cons] at h
      rcases h with rfl | h
      · exact ⟨rfl, by simp, by simp⟩
      · obtain ⟨h1, h2, h3⟩ := ih (base + 1) h
        refine ⟨h1, by simp at h2 ⊢; omega, by simp [h3]⟩

theorem mkColCells_countP_other (cid rid' cid' : Nat) (rs : List Row)
    (hne : cid' ≠ cid) : ∀ base,
    (mkColCells base cid rs).countP
      (fun cl => cl.rowId == rid' && cl.columnId == cid') = 0 := by
  induction rs with
  | nil => intro base; rfl
  | cons r rs ih =>
      intro base
      simp only [mkColCells, List.countP_cons, ih (base + 1)]
      have hp : ((r.id == rid') && (cid == cid')) = false := by
        have : (cid == cid') = false := by
          simp [Ne.symm hne]
        simp [this]
      simp [hp]

theorem mkColCells_countP_self (cid rid' : Nat) (rs : List Row) : ∀ base,
    (mkColCells base cid rs).countP
      (fun cl => cl.rowId == rid' && cl.columnId == cid)
      = rs.countP (fun r => r.id == rid') := by
  induction rs with
  | nil => intro base; rfl
  | cons r rs ih =>
      intro base
      simp only [mkColCells, List.countP_cons, ih (base + 1)]
      congr 1
      simp

theorem mkColCells_mem (cid : Nat) (rs : List Row) (cl : Cell) : ∀ base,
    cl ∈ mkColCells base cid rs →
    cl.columnId = cid ∧ cl.id < base + rs.length ∧
      cl.rowId ∈ rs.map Row.id := by
  induction rs with
  | nil => intro base h; simp [mkColCells] at h
  | cons r rs ih =>
      intro base h
      simp only [mkColCells, List.mem_cons] at h
      rcases h with rfl | h
      · exact ⟨rfl, by simp, by simp⟩
      · obtain ⟨h1, h2, h3⟩ := ih (base + 1) h
        refine ⟨h1, by simp at h2 ⊢; omega, by simp [h3]⟩

/-- In a list whose keys are duplicate-free, exactly one element carries
the key of a member. -/
theorem countP_key_eq_one (key : α → Nat) (l : List α) (a : α)
    (hnd : (l.map key).Nodup) (ha : a ∈ l) :
    l.countP (fun x => key x == key a) = 1 := by
  have h1 : l.countP (fun x => key x == key a) = (l.map key).count (key a) := by
    rw [List.count_eq_countP, List.countP_map]
    rfl
  rw [h1]
  exact List.count_eq_one_of_mem hnd (List.mem_map_of_mem key ha)

theorem mkRowCells_length (rid : Nat) (cols : List Column) : ∀ base,
    (mkRowCells base rid cols).length = cols.length := by
  induction cols with
  | nil => intro base; rfl
  | cons c cs ih => intro base; simp [mkRowCells, ih (base + 1)]

theorem mkColCells_length (cid : Nat) (rs : List Row) : ∀ base,
    (mkColCells base cid rs).length = rs.length := by
  induction rs with
  | nil => intro base; rfl
  | cons r rs ih => intro base; simp [mkColCells, ih (base + 1)]

theorem mkRowCells_value (rid : Nat) (cols : List Column) (cl : Cell) : ∀ base,
    cl ∈ mkRowCells base rid cols → cl.value = "" := by
  induction cols with
  | nil => intro base h; simp [mkRowCells] at h
  | cons c cs ih =>
      intro base h
      rcases List.mem_cons.mp h with rfl | h
      · rfl
      · exact ih (base + 1) h

theorem mkColCells_value (cid : Nat) (rs : List Row) (cl : Cell) : ∀ base,
    cl ∈ mkColCells base cid rs → cl.value = "" := by
  induction rs with
  | nil => intro base h; simp [mkColCells] at h
  | cons r rs ih =>
      intro base h
      rcases List.mem_cons.mp h with rfl | h
      · rfl
      · exact ih (base + 1) h

theorem createRow_rows (db : DB) (tid : Nat) :
    (createRow db tid).rows = db.rows ++ [⟨db.nextId, tid⟩] := rfl

theorem createRow_columns (db : DB) (tid : Nat) :
    (createRow db tid).columns = db.columns := rfl

theorem createRow_cells (db : DB) (tid : Nat) :
    (createRow db tid).cells = db.cells ++ mkRowCells (db.nextId + 1) db.nextId
      (db.columns.filter (fun c => c.tableId == tid)) := rfl

theorem createRow_nextId (db : DB) (tid : Nat) :
    (createRow db tid).nextId
      = db.nextId + 1 + (db.columns.filter (fun c => c.tableId == tid)).length := rfl

theorem createColumn_rows (db : DB) (tid : Nat) (name ty : String) :
    (createColumn db tid name ty).rows = db.rows := rfl

theorem createColumn_columns (db : DB) (tid : Nat) (name ty : String) :
    (createColumn db tid name ty).columns = db.columns ++
      [⟨db.nextId, name, ty, db.columns.countP (fun c => c.tableId == tid), tid⟩] := rfl

theorem createColumn_cells (db : DB) (tid : Nat) (name ty : String) :
    (createColumn db tid name ty).cells = db.cells ++ mkColCells (db.nextId + 1) db.nextId
      (db.rows.filter (fun r => r.tableId == tid)) := rfl

theorem createColumn_nextId (db : DB) (tid : Nat) (name ty : String) :
    (createColumn db tid name ty).nextId
      = db.nextId + 1 + (db.rows.filter (fun r => r.tableId == tid)).length := rfl

theorem createRow_preserves (db : DB) (tid : Nat)
    (hwf : wfDB db) (hcc : cellComplete db) :
    wfDB (createRow db tid) ∧ cellComplete (createRow db tid) := by
  obtain ⟨hr, hcb, hcl, hndr, hndc⟩ := hwf
  constructor
  · refine ⟨?_, ?_, ?_, ?_, ?_⟩
    · intro r hrm
      rw [createRow_rows] at hrm
      rw [createRow_nextId]
      rcases List.mem_append.mp hrm with h | h
      · have := hr r h
        omega
      · rw [List.mem_singleton] at h
        subst h
        dsimp only
        omega
    · intro c hcm
      rw [createRow_columns] at hcm
      rw [createRow_nextId]
      have := hcb c hcm
      omega
    · intro cl hclm
      rw [createRow_cells] at hclm
      rw [createRow_nextId]
      rcases List.mem_append.mp hclm with h | h
      · have := hcl cl h
        omega
      · obtain ⟨h1, h2, h3⟩ := mkRowCells_mem db.nextId _ cl (db.nextId + 1) h
        obtain ⟨x, hx, hxid⟩ := List.mem_map.mp h3
        have hxcol : x ∈ db.columns := List.mem_of_mem_filter hx
        have hxb := hcb x hxcol
        refine ⟨by omega, by omega, by omega⟩
    · rw [createRow_rows, List.map_append]
      rw [List.nodup_append]
      refine ⟨hndr, by simp, ?_⟩
      intro a ha hb
      simp only [List.map_cons, List.map_nil, List.mem_singleton] at hb
      obtain ⟨r, hrm, hrid⟩ := List.mem_map.mp ha
      have := hr r hrm
      omega
    · rw [createRow_columns]
      exact hndc
  · intro r hrm c hcm htid
    rw [createRow_rows] at hrm
    rw [createRow_columns] at hcm
    rw [createRow_cells, List.countP_append]
    rcases List.mem_append.mp hrm with h | h
    · have hone := hcc r h c hcm htid
      have hzero : (mkRowCells (db.nextId + 1) db.nextId
          (db.columns.filter (fun x => x.tableId == tid))).countP
          (fun cl => cl.rowId == r.id && cl.columnId == c.id) = 0 := by
        apply mkRowCells_countP_other
        have := hr r h
        omega
      omega
    · rw [List.mem_singleton] at h
      subst h
      dsimp only at htid ⊢
      have hcmem : c ∈ db.columns.filter (fun x => x.tableId == tid) :=
        List.mem_filter.mpr ⟨hcm, by simp [← htid]⟩
      have hzero : db.cells.countP
          (fun cl => cl.rowId == db.nextId && cl.columnId == c.id) = 0 := by
        rw [List.countP_eq_zero]
        intro cl hclm
        have := hcl cl hclm
        simp only [Bool.and_eq_true, beq_iff_eq, not_and]
        intro he
        omega
      have hone : (mkRowCells (db.nextId + 1) db.nextId
          (db.columns.filter (fun x => x.tableId == tid))).countP
          (fun cl => cl.rowId == db.nextId && cl.columnId == c.id)
          = (db.columns.filter (fun x => x.tableId == tid)).countP
              (fun x => x.id == c.id) :=
        mkRowCells_countP_self db.nextId c.id _ (db.nextId + 1)
      have hnd2 : ((db.columns.filter (fun x => x.tableId == tid)).map Column.id).Nodup :=
        List.Nodup.sublist ((List.filter_sublist _).map _) hndc
      have hcount := countP_key_eq_one Column.id _ c hnd2 hcmem
      rw [hzero, hone, hcount]

theorem createColumn_preserves (db : DB) (tid : Nat) (name ty : String)
    (hwf : wfDB db) (hcc : cellComplete db) :
    wfDB (createColumn db tid name ty) ∧ cellComplete (createColumn db tid name ty) := by
  obtain ⟨hr, hcb, hcl, hndr, hndc⟩ := hwf
  constructor
  · refine ⟨?_, ?_, ?_, ?_, ?_⟩
    · intro r hrm
      rw [createColumn_rows] at hrm
      rw [createColumn_nextId]
      have := hr r hrm
      omega
    · intro c hcm
      rw [createColumn_columns] at hcm
      rw [createColumn_nextId]
      rcases List.mem_append.mp hcm with h | h
      · have := hcb c h
        omega
      · rw [List.mem_singleton] at h
        subst h
        dsimp only
        omega
    · intro cl hclm
      rw [createColumn_cells] at hclm
      rw [createColumn_nextId]
      rcases List.mem_append.mp hclm with h | h
      · have := hcl cl h
        omega
      · obtain ⟨h1, h2, h3⟩ := mkColCells_mem db.nextId _ cl (db.nextId + 1) h
        obtain ⟨x, hx, hxid⟩ := List.mem_map.mp h3
        have hxrow : x ∈ db.rows := List.mem_of_mem_filter hx
        have hxb := hr x hxrow
        refine ⟨by omega, by omega, by omega⟩
    · rw [createColumn_rows]
      exact hndr
    · rw [createColumn_columns, List.map_append]
      rw [List.nodup_append]
      refine ⟨hndc, by simp, ?_⟩
      intro a ha hb
      simp only [List.map_cons, List.map_nil, List.mem_singleton] at hb
      obtain ⟨c, hcm, hcid⟩ := List.mem_map.mp ha
      have := hcb c hcm
      omega
  · intro r hrm c hcm htid
    rw [createColumn_rows] at hrm
    rw [createColumn_columns] at hcm
    rw [createColumn_cells, List.countP_append]
    rcases List.mem_append.mp hcm with h | h
    · have hone := hcc r hrm c h htid
      have hzero : (mkColCells (db.nextId + 1) db.nextId
          (db.rows.filter (fun x => x.tableId == tid))).countP
          (fun cl => cl.rowId == r.id && cl.columnId == c.id) = 0 := by
        apply mkColCells_countP_other
        have := hcb c h
        omega
      omega
    · rw [List.mem_singleton] at h
      subst h
      dsimp only at htid ⊢
      have hrmem : r ∈ db.rows.filter (fun x => x.tableId == tid) :=
        List.mem_filter.mpr ⟨hrm, by simp [htid]⟩
      have hzero : db.cells.countP
          (fun cl => cl.rowId == r.id && cl.columnId == db.nextId) = 0 := by
        rw [List.countP_eq_zero]
        intro cl hclm
        have := hcl cl hclm
        simp only [Bool.and_eq_true, beq_iff_eq, not_and]
        intro he
        omega
      have hone : (mkColCells (db.nextId + 1) db.nextId
          (db.rows.filter (fun x => x.tableId == tid))).countP
          (fun cl => cl.rowId == r.id && cl.columnId == db.nextId)
          = (db.rows.filter (fun x => x.tableId == tid)).countP
              (fun x => x.id == r.id) :=
        mkColCells_countP_self db.nextId r.id _ (db.nextId + 1)
      have hnd2 : ((db.rows.filter (fun x => x.tableId == tid)).map Row.id).Nodup :=
        List.Nodup.sublist ((List.filter_sublist _).map _) hndr
      have hcount := countP_key_eq_one Row.id _ r hnd2 hrmem
      rw [hzero, hone, hcount]

theorem applyOps_preserve (ops : List Op) : ∀ db : DB, wfDB db → cellComplete db →
    wfDB (applyOps db ops) ∧ cellComplete (applyOps db ops) := by
  induction ops with
  | nil => intro db h1 h2; exact ⟨h1, h2⟩
  | cons op ops ih =>
      intro db h1 h2
      have hstep : wfDB (applyOp db op) ∧ cellComplete (applyOp db op) := by
        cases op with
        | addRow tid => exact createRow_preserves db tid h1 h2
        | addColumn tid name ty => exact createColumn_preserves db tid name ty h1 h2
      simpa only [applyOps, List.foldl_cons] using ih (applyOp db op) hstep.1 hstep.2

/-- Claim C8: starting from any well-formed store satisfying the
cell-completeness invariant, every state reachable by `createRow` and
`createColumn` operations still has exactly one cell per (row, column)
pair of each table; moreover `createRow` adds exactly one empty cell per
existing column of the table and `createColumn` backfills exactly one
empty cell per existing row. -/
theorem create_ops_preserve_cellComplete (db : DB) (ops : List Op)
    (hwf : wfDB db) (hcc : cellComplete db) :
    (cellComplete (applyOps db ops) ∧ wfDB (applyOps db ops)) ∧
    (∀ tid, (createRow db tid).cells.length
        = db.cells.length + (db.columns.filter (fun c => c.tableId == tid)).length) ∧
    (∀ tid, ∀ cl ∈ (createRow db tid).cells, cl ∉ db.cells → cl.value = "") ∧
    (∀ tid name ty, (createColumn db tid name ty).cells.length
        = db.cells.length + (db.rows.filter (fun r => r.tableId == tid)).length) ∧
    (∀ tid name ty, ∀ cl ∈ (createColumn db tid name ty).cells,
        cl ∉ db.cells → cl.value = "") := by
  refine ⟨⟨(applyOps_preserve ops db hwf hcc).2, (applyOps_preserve ops db hwf hcc).1⟩,
    ?_, ?_, ?_, ?_⟩
  · intro tid
    rw [createRow_cells, List.length_append, mkRowCells_length]
  · intro tid cl hclm hold
    rw [createRow_cells] at hclm
    rcases List.mem_append.mp hclm with h | h
    · exact absurd h hold
    · exact mkRowCells_value db.nextId _ cl (db.nextId + 1) h
  · intro tid name ty
    rw [createColumn_cells, List.length_append, mkColCells_length]
  · intro tid name ty cl hclm hold
    rw [createColumn_cells] at hclm
    rcases List.mem_append.mp hclm with h | h
    · exact absurd h hold
    · exact mkColCells_value db.nextId _ cl (db.nextId + 1) h

/-- The empty store. -/
def dbEmpty : DB := ⟨0, [], [], []⟩

/-- A concrete operation sequence: two columns and two rows, with a
column backfill interleaved between the row creations. -/
def opsScen : List Op :=
  [.addColumn 1 "Title" "text", .addRow 1, .addColumn 1 "Number" "number", .addRow 1]

theorem create_ops_preserve_cellComplete_witness :
    wfDB dbEmpty ∧ cellComplete dbEmpty ∧
    ((cellComplete (applyOps dbEmpty opsScen) ∧ wfDB (applyOps dbEmpty opsScen)) ∧
    (∀ tid, (createRow dbEmpty tid).cells.length
        = dbEmpty.cells.length
          + (dbEmpty.columns.filter (fun c => c.tableId == tid)).length) ∧
    (∀ tid, ∀ cl ∈ (createRow dbEmpty tid).cells, cl ∉ dbEmpty.cells → cl.value = "") ∧
    (∀ tid name ty, (createColumn dbEmpty tid name ty).cells.length
        = dbEmpty.cells.length
          + (dbEmpty.rows.filter (fun r => r.tableId == tid)).length) ∧
    (∀ tid name ty, ∀ cl ∈ (createColumn dbEmpty tid name ty).cells,
        cl ∉ dbEmpty.cells → cl.value = "")) :=
  ⟨by decide, by decide,
    create_ops_preserve_cellComplete dbEmpty opsScen (by decide) (by decide)⟩

end Solidchair
